import Mathlib

/-!
Verification of the `solver` repository: a shallow embedding of
`src/solver/__init__.py` (the nondeterministic choice engine),
`src/predicates/varstore.py` (the reactive variable store) and
`src/predicates/predicates.py` (the predicate dependency layer),
with theorems settling the specification claims.
-/

set_option maxRecDepth 4000

/-- Python values appearing in the repository's programs and tests:
`None`, ints, strings, booleans and (i, j, k) tuples. -/
inductive Val where
  | none
  | int (n : Int)
  | str (s : String)
  | bool (b : Bool)
  | triple (a b c : Val)
deriving DecidableEq, Repr

/-- One entry of `Solver.choices`: Python stores either a branch index
(appended by `choose`) or a shared `IfAny` instance (appended by `if_any`).
Object references are modelled as indices into a heap of `IfAnyData`. -/
inductive PathEntry where
  | idx (i : Nat)
  | ifany (id : Nat)
deriving DecidableEq, Repr

/-- The mutable fields of a Python `IfAny` object (src/solver/__init__.py,
class IfAny): `choice_idx`, `val`, `locked`, `branch_count`. -/
structure IfAnyData where
  choice_idx : Nat
  val : Bool
  locked : Bool
  branch_count : Int
deriving DecidableEq, Repr

/-- Python exceptions relevant to the repository. `prune` is
`PruneException` and `chooseExc` is `ChooseException` (the module's
two exception classes, src/solver/__init__.py lines 139-143); the
others are built-in exceptions raised by the code. -/
inductive Exc where
  | prune
  | chooseExc
  | indexError
  | typeError
  | keyError
  | valueError
  | attributeError
  | nameError (ident : String)
  | assertionError (msg : String)
  | userExc (msg : String)
deriving DecidableEq, Repr

/-- The state of a `Solver` object during one universe: the pending
deque `choice_stack`, the current path `choices`, the replay position
(`choices_idx + 1` in Python terms), the `if_any_stack` (top at head)
and the heap of `IfAny` objects shared across universes. -/
structure SolverSt where
  choice_stack : List (List PathEntry)
  choices : List PathEntry
  pos : Nat
  if_any_stack : List Nat
  heap : List IfAnyData
deriving DecidableEq, Repr

/-- Mutate the `IfAny` object `id` in the heap (Python attribute update
through a shared object reference). Out-of-range ids leave the heap
unchanged; the interpreter never allocates dangling ids. -/
def heapModify (heap : List IfAnyData) (id : Nat) (f : IfAnyData → IfAnyData) :
    List IfAnyData :=
  match heap.get? id with
  | some d => heap.set id (f d)
  | Option.none => heap

/-- `Solver.choose(choices)` (src/solver/__init__.py lines 64-85).
Replay: if the position is still covered by the recorded path, return
`options[path[site]]`. Fresh site: enqueue one pending path per option
index 1..n-1, bump the enclosing if-any branch counter by n-1, append
index 0 and return `options[0]`; empty options hit IndexError at
`choices[0]` after the (empty) enqueue loop. -/
def chooseStep (opts : List Val) (st : SolverSt) : Except Exc Val × SolverSt :=
  match st.choices.get? st.pos with
  | some (PathEntry.idx j) =>
      match opts.get? j with
      | some v => (Except.ok v, { st with pos := st.pos + 1 })
      | Option.none => (Except.error Exc.indexError, { st with pos := st.pos + 1 })
  | some (PathEntry.ifany _) => (Except.error Exc.typeError, { st with pos := st.pos + 1 })
  | Option.none =>
    let pend := ((List.range opts.length).drop 1).map
      (fun i => st.choices ++ [PathEntry.idx i])
    let heap1 :=
      match st.if_any_stack with
      | [] => st.heap
      | id :: _ =>
          heapModify st.heap id
            (fun d => { d with branch_count := d.branch_count + ((opts.length : Int) - 1) })
    match opts with
    | [] =>
        (Except.error Exc.indexError,
          { st with pos := st.pos + 1, choice_stack := st.choice_stack ++ pend,
                    heap := heap1 })
    | v :: _ =>
        (Except.ok v,
          { st with pos := st.pos + 1, choice_stack := st.choice_stack ++ pend,
                    heap := heap1, choices := st.choices ++ [PathEntry.idx 0] })

/-- `Solver.prune()` (lines 87-100): decrement the enclosing if-any
branch counter; if it reaches 0 and the instance is not locked, flip its
`val` to False and enqueue the path truncated just past the if-any entry.
The caller then raises `PruneException`. -/
def pruneStep (st : SolverSt) : SolverSt :=
  match st.if_any_stack with
  | [] => st
  | id :: _ =>
    let heap1 := heapModify st.heap id (fun d => { d with branch_count := d.branch_count - 1 })
    match heap1.get? id with
    | some d =>
        if d.branch_count == 0 && !d.locked then
          { st with heap := heapModify heap1 id (fun x => { x with val := false }),
                    choice_stack := st.choice_stack ++ [st.choices.take (d.choice_idx + 1)] }
        else { st with heap := heap1 }
    | Option.none => { st with heap := heap1 }

/-- `Solver.if_any()` (lines 102-129): on replay the recorded entry must
be an `IfAny` object (an int there raises AttributeError at
`if_any_inst.val`); fresh sites allocate a new `IfAny` with
`branch_count = 1`, record it in the path and push it on the stack.
Returns the instance's `val`. -/
def ifAnyStep (st : SolverSt) : Except Exc Bool × SolverSt :=
  match st.choices.get? st.pos with
  | some (PathEntry.ifany id) =>
      match st.heap.get? id with
      | some d =>
          (Except.ok d.val,
            { st with pos := st.pos + 1, if_any_stack := id :: st.if_any_stack })
      | Option.none => (Except.error Exc.attributeError, { st with pos := st.pos + 1 })
  | some (PathEntry.idx _) => (Except.error Exc.attributeError, { st with pos := st.pos + 1 })
  | Option.none =>
    let id := st.heap.length
    (Except.ok true,
      { st with pos := st.pos + 1,
                heap := st.heap ++ [⟨st.pos, true, false, 1⟩],
                choices := st.choices ++ [PathEntry.ifany id],
                if_any_stack := id :: st.if_any_stack })

/-- `Solver.else_none()` (lines 131-137): pop the if-any stack (empty
stack raises IndexError), lock the instance and return `not val`. -/
def elseNoneStep (st : SolverSt) : Except Exc Bool × SolverSt :=
  match st.if_any_stack with
  | [] => (Except.error Exc.indexError, st)
  | id :: rest =>
      match st.heap.get? id with
      | some d =>
          (Except.ok (!d.val),
            { st with if_any_stack := rest,
                      heap := heapModify st.heap id (fun x => { x with locked := true }) })
      | Option.none =>
          (Except.error Exc.attributeError, { st with if_any_stack := rest })

/-- A client function run under the solver, as the tree of its calls
into the engine: `ret` is a normal return, `raiseExc` an exception
(of any class, e.g. `ChooseException` or a built-in) raised directly
by client code, `pruneCall` is `solver.prune()`, and the remaining
nodes are `solver.choose`, `solver.if_any()` and `solver.else_none()`
with their continuations. -/
inductive Prog where
  | ret (v : Val)
  | raiseExc (e : Exc)
  | pruneCall
  | choose (opts : List Val) (k : Val → Prog)
  | ifAnyCall (k : Bool → Prog)
  | elseNoneCall (k : Bool → Prog)

/-- Run `fn(solver)` once in the given solver state (one universe).
Returns the function's outcome (value or exception) and the state. -/
def runProg : Prog → SolverSt → Except Exc Val × SolverSt
  | Prog.ret v, st => (Except.ok v, st)
  | Prog.raiseExc e, st => (Except.error e, st)
  | Prog.pruneCall, st => (Except.error Exc.prune, pruneStep st)
  | Prog.choose opts k, st =>
      match chooseStep opts st with
      | (Except.ok v, st1) => runProg (k v) st1
      | (Except.error e, st1) => (Except.error e, st1)
  | Prog.ifAnyCall k, st =>
      match ifAnyStep st with
      | (Except.ok b, st1) => runProg (k b) st1
      | (Except.error e, st1) => (Except.error e, st1)
  | Prog.elseNoneCall k, st =>
      match elseNoneStep st with
      | (Except.ok b, st1) => runProg (k b) st1
      | (Except.error e, st1) => (Except.error e, st1)

/-- The solver state at the start of one universe: `Solver.solve` pops
the path, resets `choices_idx` to -1 and `if_any_stack` to `[]`; the
deque and the shared `IfAny` objects persist. -/
def mkRunSt (p : List PathEntry) (rest : List (List PathEntry))
    (heap : List IfAnyData) : SolverSt :=
  { choice_stack := rest, choices := p, pos := 0, if_any_stack := [], heap := heap }

/-- The state carried between universes by `Solver.solve`: the pending
deque and the heap of shared `IfAny` objects. -/
structure DrainSt where
  stack : List (List PathEntry)
  heap : List IfAnyData
deriving DecidableEq, Repr

/-- Outcome of draining the pending deque: all universes explored
(`done`), a non-prune exception propagated (`fatal`), or the fuel bound
was reached (`fuelOut`); each carries the values yielded so far. -/
inductive SolveOut where
  | done (vs : List Val)
  | fatal (vs : List Val) (e : Exc)
  | fuelOut (vs : List Val)
deriving DecidableEq, Repr

/-- Prepend one yielded value to a drain outcome. -/
def consVal (v : Val) : SolveOut → SolveOut
  | SolveOut.done vs => SolveOut.done (v :: vs)
  | SolveOut.fatal vs e => SolveOut.fatal (v :: vs) e
  | SolveOut.fuelOut vs => SolveOut.fuelOut (v :: vs)

/-- The `while` loop of `Solver.solve` (lines 48-62), fuel-indexed: pop
a pending path, rerun `fn`, yield its value on normal return, silently
drop the universe on `PruneException` (line 58) and likewise on
`ChooseException` (lines 60-62, "could return partial solutions
here"), and abort on any other exception. -/
def solveLoop (fn : Prog) : Nat → DrainSt → SolveOut
  | 0, _ => SolveOut.fuelOut []
  | _ + 1, ⟨[], _⟩ => SolveOut.done []
  | fuel + 1, ⟨p :: rest, heap⟩ =>
      match runProg fn (mkRunSt p rest heap) with
      | (Except.ok v, st1) => consVal v (solveLoop fn fuel ⟨st1.choice_stack, st1.heap⟩)
      | (Except.error Exc.prune, st1) => solveLoop fn fuel ⟨st1.choice_stack, st1.heap⟩
      | (Except.error Exc.chooseExc, st1) => solveLoop fn fuel ⟨st1.choice_stack, st1.heap⟩
      | (Except.error e, _) => SolveOut.fatal [] e

/-- Top-level `solve(fn)`: a fresh `Solver` whose deque starts with the
single empty path. -/
def solve (fn : Prog) (fuel : Nat) : SolveOut :=
  solveLoop fn fuel ⟨[[]], []⟩

/-- Drain outcome that also records, for every yielded value, the final
`Solver.choices` path of its universe. -/
inductive SolveOutP where
  | done (l : List (Val × List PathEntry))
  | fatal (l : List (Val × List PathEntry)) (e : Exc)
  | fuelOut (l : List (Val × List PathEntry))
deriving DecidableEq, Repr

/-- Prepend one yielded (value, path) pair to a path-recording outcome. -/
def consValP (v : Val × List PathEntry) : SolveOutP → SolveOutP
  | SolveOutP.done l => SolveOutP.done (v :: l)
  | SolveOutP.fatal l e => SolveOutP.fatal (v :: l) e
  | SolveOutP.fuelOut l => SolveOutP.fuelOut (v :: l)

/-- The same drain loop as `solveLoop`, additionally recording the
choice path (`self.choices` at yield time) of every yielded result. -/
def solveLoopPaths (fn : Prog) : Nat → DrainSt → SolveOutP
  | 0, _ => SolveOutP.fuelOut []
  | _ + 1, ⟨[], _⟩ => SolveOutP.done []
  | fuel + 1, ⟨p :: rest, heap⟩ =>
      match runProg fn (mkRunSt p rest heap) with
      | (Except.ok v, st1) =>
          consValP (v, st1.choices) (solveLoopPaths fn fuel ⟨st1.choice_stack, st1.heap⟩)
      | (Except.error Exc.prune, st1) => solveLoopPaths fn fuel ⟨st1.choice_stack, st1.heap⟩
      | (Except.error Exc.chooseExc, st1) =>
          solveLoopPaths fn fuel ⟨st1.choice_stack, st1.heap⟩
      | (Except.error e, _) => SolveOutP.fatal [] e

/-- `solve(fn)` with recorded paths. -/
def solvePaths (fn : Prog) (fuel : Nat) : SolveOutP :=
  solveLoopPaths fn fuel ⟨[[]], []⟩

/-- `TestSolver.fn` from src/tests/test_solver.py: choose i, j from
(1,2,3), k from (1,2,3) when j == 2 else k = 0, prune unless i, j, k
are pairwise distinct, return (i, j, k). -/
def solverTestFn : Prog :=
  Prog.choose [Val.int 1, Val.int 2, Val.int 3] (fun i =>
    Prog.choose [Val.int 1, Val.int 2, Val.int 3] (fun j =>
      if j = Val.int 2 then
        Prog.choose [Val.int 1, Val.int 2, Val.int 3] (fun k =>
          if i = j ∨ j = k ∨ i = k then Prog.pruneCall else Prog.ret (Val.triple i j k))
      else
        if i = j ∨ j = Val.int 0 ∨ i = Val.int 0 then Prog.pruneCall
        else Prog.ret (Val.triple i j (Val.int 0))))

/-- The options `range(5)` as values. -/
def range5Vals : List Val :=
  [Val.int 0, Val.int 1, Val.int 2, Val.int 3, Val.int 4]

/-- `ifany_if` from src/tests/test_ifelse.py. -/
def ifanyIf : Prog :=
  Prog.ifAnyCall (fun b =>
    if b then
      Prog.choose range5Vals (fun c =>
        if c = Val.int 3 then Prog.pruneCall else Prog.ret c)
    else
      Prog.elseNoneCall (fun b2 =>
        if b2 then Prog.ret (Val.str "else") else Prog.ret Val.none))

/-- `ifany_else` from src/tests/test_ifelse.py. -/
def ifanyElse : Prog :=
  Prog.ifAnyCall (fun b =>
    if b then Prog.pruneCall
    else
      Prog.elseNoneCall (fun b2 =>
        if b2 then Prog.ret (Val.str "else") else Prog.ret Val.none))

/-- `ifany_none` from src/tests/test_ifelse.py. -/
def ifanyNone : Prog :=
  Prog.ifAnyCall (fun b =>
    if b then Prog.pruneCall
    else
      Prog.elseNoneCall (fun b2 =>
        if b2 then Prog.pruneCall else Prog.ret Val.none))

/-- Falling through to the check `if solver.else_none(): return "else"`
at the end of `ifany_else2` (outermost pair's else site). -/
def e2afterA : Prog :=
  Prog.elseNoneCall (fun ae =>
    if ae then Prog.ret (Val.str "else") else Prog.ret Val.none)

/-- Falling through to `if solver.else_none(): return ifany_if(solver)`
in `ifany_else2` (middle pair's else site); on fall-through the
function continues to the outermost else site. -/
def e2afterB : Prog :=
  Prog.elseNoneCall (fun be => if be then ifanyIf else e2afterA)

/-- Falling through to `if solver.else_none(): solver.prune()` in
`ifany_else2` (innermost pair's else site). -/
def e2afterC : Prog :=
  Prog.elseNoneCall (fun ce => if ce then Prog.pruneCall else e2afterB)

/-- `ifany_else2` from src/tests/test_ifelse.py. -/
def ifanyElse2 : Prog :=
  Prog.ifAnyCall (fun a =>
    if a then
      Prog.ifAnyCall (fun b =>
        if b then
          Prog.choose range5Vals (fun _ =>
            Prog.ifAnyCall (fun c =>
              if c then Prog.choose range5Vals (fun _ => Prog.pruneCall)
              else e2afterC))
        else e2afterB)
    else e2afterA)

/-- Continuation after the inner if-any pair of `nestedIfAny`: the inner
else block is `pass`, then `if c == 1: solver.prune()`, then
`return "survived"`. -/
def nestedIfAnyRest (c : Val) : Prog :=
  Prog.elseNoneCall (fun _ =>
    if c = Val.int 1 then Prog.pruneCall else Prog.ret (Val.str "survived"))

/-- A matched nested if-any program exercising the branch-count
bookkeeping, as the Python function

    def nested(solver):
        if solver.if_any():
            if solver.if_any():
                c = solver.choose((1, 2))
            if solver.else_none():
                pass
            if c == 1:
                solver.prune()
            return "survived"
        if solver.else_none():
            return "else"

The expansion choosing c = 2 of the outer if block survives, so by the
documented if-any semantics the else block must never run and
"survived" must be yielded. -/
def nestedIfAny : Prog :=
  Prog.ifAnyCall (fun bo =>
    if bo then
      Prog.ifAnyCall (fun bi =>
        if bi then
          Prog.choose [Val.int 1, Val.int 2] (fun c => nestedIfAnyRest c)
        else nestedIfAnyRest Val.none)
    else
      Prog.elseNoneCall (fun be =>
        if be then Prog.ret (Val.str "else") else Prog.ret Val.none))

/-- A value stored in a `VarStore` node: a scalar (leaf) or a nested
Python dict, modelled as an insertion-ordered association list. Python
allows the key `None` (a `put`/`mkdir`/`rm` on the empty path uses
`last = None`), so keys are `Option String`. -/
inductive VVal where
  | leaf (v : Val)
  | dir (entries : List (Option String × VVal))

/-- A Python dict of `VarStore` nodes. -/
abbrev Dict := List (Option String × VVal)

/-- A `VarStore` path: an ordered sequence of string segments. -/
abbrev VPath := List String

/-- Python `k in d` on an insertion-ordered dict. -/
def alContains (d : Dict) (k : Option String) : Bool :=
  d.any (fun e => e.1 == k)

/-- Python `d[k]` lookup (first binding; keys are unique in practice). -/
def alGet (d : Dict) (k : Option String) : Option VVal :=
  match d.find? (fun e => e.1 == k) with
  | some e => some e.2
  | Option.none => Option.none

/-- Python `d[k] = v`: replace in place when the key exists, else append. -/
def alSet (d : Dict) (k : Option String) (v : VVal) : Dict :=
  match d with
  | [] => [(k, v)]
  | e :: rest => if e.1 == k then (k, v) :: rest else e :: alSet rest k v

/-- Python `del d[k]` (the caller checks presence first). -/
def alDel (d : Dict) (k : Option String) : Dict :=
  match d with
  | [] => []
  | e :: rest => if e.1 == k then rest else e :: alDel rest k

/-- `VarStore.put` via `_traverse(path, mkdirs=True)`
(src/predicates/varstore.py lines 14-31 and 63-66), as a recursive
rebuild of the aliased dict mutation. Returns the new root dict and the
list of paths passed to `_check_watch`, in order: the parent `curpath`
of every intermediate dict the traversal creates, then the full path
after `d[k] = val`. An empty intermediate segment fails the
`assert k` (AssertionError); a non-dict intermediate raises KeyError. -/
def putGo (cur : VPath) (d : Dict) : List String → Val → Except Exc (Dict × List VPath)
  | [], v => Except.ok (alSet d Option.none (VVal.leaf v), [cur])
  | [last], v => Except.ok (alSet d (some last) (VVal.leaf v), [cur ++ [last]])
  | k :: k2 :: rest, v =>
      if k = "" then Except.error (Exc.assertionError "empty path")
      else
        match alGet d (some k) with
        | Option.none =>
            match putGo (cur ++ [k]) [] (k2 :: rest) v with
            | Except.ok (sub, notifs) =>
                Except.ok (alSet d (some k) (VVal.dir sub), cur :: notifs)
            | Except.error e => Except.error e
        | some (VVal.dir sub) =>
            match putGo (cur ++ [k]) sub (k2 :: rest) v with
            | Except.ok (sub2, notifs) =>
                Except.ok (alSet d (some k) (VVal.dir sub2), notifs)
            | Except.error e => Except.error e
        | some (VVal.leaf _) => Except.error Exc.keyError

/-- `VarStore.mkdir` (lines 43-49): traverse with `mkdirs=True`; create
the final dict and notify the path when absent, do nothing when it is
already a dict, raise KeyError when it is a non-dict value. -/
def mkdirGo (cur : VPath) (d : Dict) : List String → Except Exc (Dict × List VPath)
  | [] =>
      match alGet d Option.none with
      | Option.none => Except.ok (alSet d Option.none (VVal.dir []), [cur])
      | some (VVal.dir _) => Except.ok (d, [])
      | some (VVal.leaf _) => Except.error Exc.keyError
  | [last] =>
      match alGet d (some last) with
      | Option.none => Except.ok (alSet d (some last) (VVal.dir []), [cur ++ [last]])
      | some (VVal.dir _) => Except.ok (d, [])
      | some (VVal.leaf _) => Except.error Exc.keyError
  | k :: k2 :: rest =>
      if k = "" then Except.error (Exc.assertionError "empty path")
      else
        match alGet d (some k) with
        | Option.none =>
            match mkdirGo (cur ++ [k]) [] (k2 :: rest) with
            | Except.ok (sub, notifs) =>
                Except.ok (alSet d (some k) (VVal.dir sub), cur :: notifs)
            | Except.error e => Except.error e
        | some (VVal.dir sub) =>
            match mkdirGo (cur ++ [k]) sub (k2 :: rest) with
            | Except.ok (sub2, notifs) =>
                Except.ok (alSet d (some k) (VVal.dir sub2), notifs)
            | Except.error e => Except.error e
        | some (VVal.leaf _) => Except.error Exc.keyError

/-- `VarStore.rm` (lines 38-41): traverse with `mkdirs=False` (missing
or non-dict intermediates raise KeyError), `del d[k]` (KeyError when
absent), then notify exactly the removed path. -/
def rmGo (cur : VPath) (d : Dict) : List String → Except Exc (Dict × List VPath)
  | [] =>
      if alContains d Option.none then Except.ok (alDel d Option.none, [cur])
      else Except.error Exc.keyError
  | [last] =>
      if alContains d (some last) then Except.ok (alDel d (some last), [cur ++ [last]])
      else Except.error Exc.keyError
  | k :: k2 :: rest =>
      if k = "" then Except.error (Exc.assertionError "empty path")
      else
        match alGet d (some k) with
        | some (VVal.dir sub) =>
            match rmGo (cur ++ [k]) sub (k2 :: rest) with
            | Except.ok (sub2, notifs) =>
                Except.ok (alSet d (some k) (VVal.dir sub2), notifs)
            | Except.error e => Except.error e
        | some (VVal.leaf _) => Except.error Exc.keyError
        | Option.none => Except.error Exc.keyError

/-- `VarStore.get` (lines 57-61): the root dict on the empty path, else
traverse without `mkdirs` and return `d[k]`. -/
def getGo (d : Dict) : List String → Except Exc VVal
  | [] => Except.ok (VVal.dir d)
  | [last] =>
      match alGet d (some last) with
      | some v => Except.ok v
      | Option.none => Except.error Exc.keyError
  | k :: k2 :: rest =>
      if k = "" then Except.error (Exc.assertionError "empty path")
      else
        match alGet d (some k) with
        | some (VVal.dir sub) => getGo sub (k2 :: rest)
        | some (VVal.leaf _) => Except.error Exc.keyError
        | Option.none => Except.error Exc.keyError

/-- A `VarStore`: the root dict, the watch registry (`self.watches`, a
dict from path to the list of `VarWatch` objects, modelled by unique
numeric ids) and the id counter standing for object allocation. -/
structure VarStore where
  root : Dict
  watches : List (VPath × List Nat)
  nextId : Nat

/-- Lookup in the watch registry dict. -/
def wFind (w : List (VPath × List Nat)) (p : VPath) : Option (List Nat) :=
  match w.find? (fun e => e.1 == p) with
  | some e => some e.2
  | Option.none => Option.none

/-- Replace the watcher list registered at `p` in place. -/
def wSet (w : List (VPath × List Nat)) (p : VPath) (l : List Nat) :
    List (VPath × List Nat) :=
  match w with
  | [] => [(p, l)]
  | e :: rest => if e.1 == p then (p, l) :: rest else e :: wSet rest p l

/-- The watchers `_check_watch(p)` invokes: exactly those registered at
`p` (`self.watches.get(path, [])`). -/
def watchersAt (w : List (VPath × List Nat)) (p : VPath) : List Nat :=
  (wFind w p).getD []

/-- The watcher ids invoked over a sequence of `_check_watch` calls. -/
def invokedIds (w : List (VPath × List Nat)) (notifs : List VPath) : List Nat :=
  notifs.flatMap (watchersAt w)

/-- `VarStore.put(path, val)`: returns the updated store and the ids
of the watcher callbacks invoked, in invocation order. -/
def VarStore.put (st : VarStore) (p : VPath) (v : Val) :
    Except Exc (VarStore × List Nat) :=
  match putGo [] st.root p v with
  | Except.ok (r2, notifs) => Except.ok ({ st with root := r2 }, invokedIds st.watches notifs)
  | Except.error e => Except.error e

/-- `VarStore.mkdir(path)` with its invoked watcher ids. -/
def VarStore.mkdir (st : VarStore) (p : VPath) :
    Except Exc (VarStore × List Nat) :=
  match mkdirGo [] st.root p with
  | Except.ok (r2, notifs) => Except.ok ({ st with root := r2 }, invokedIds st.watches notifs)
  | Except.error e => Except.error e

/-- `VarStore.rm(path)` with its invoked watcher ids. -/
def VarStore.rm (st : VarStore) (p : VPath) :
    Except Exc (VarStore × List Nat) :=
  match rmGo [] st.root p with
  | Except.ok (r2, notifs) => Except.ok ({ st with root := r2 }, invokedIds st.watches notifs)
  | Except.error e => Except.error e

/-- `VarStore.get(path)`. -/
def VarStore.get (st : VarStore) (p : VPath) : Except Exc VVal :=
  getGo st.root p

/-- `VarStore.watch(path, func)` (lines 72-78): `self.get(path)` first
(so a missing path raises KeyError), then append a fresh `VarWatch` to
`self.watches[path]`. Returns the updated store and the handle's id. -/
def VarStore.watch (st : VarStore) (p : VPath) : Except Exc (VarStore × Nat) :=
  match getGo st.root p with
  | Except.ok _ =>
      let cur := (wFind st.watches p).getD []
      Except.ok
        ({ st with watches := wSet st.watches p (cur ++ [st.nextId]),
                   nextId := st.nextId + 1 },
          st.nextId)
  | Except.error e => Except.error e

/-- `VarStore.unwatch(watch)` (lines 80-81):
`self.watches.get(watch.path, {}).remove(watch)`. Removing a handle
not in the list raises ValueError; a path never registered gives the
`{}` default, whose missing `remove` attribute raises AttributeError. -/
def VarStore.unwatch (st : VarStore) (p : VPath) (id : Nat) : Except Exc VarStore :=
  match wFind st.watches p with
  | some l =>
      if id ∈ l then
        Except.ok { st with watches := wSet st.watches p (l.erase id) }
      else Except.error Exc.valueError
  | Option.none => Except.error Exc.attributeError

/-- Predicate lifecycle states (src/predicates/predicates.py lines 4-9). -/
inductive PredState where
  | unsolved
  | solving
  | solved
  | starting
  | started
  | stopping
deriving DecidableEq, Repr

/-- A memoized predicate instance as far as `require_byname` reads it:
its lifecycle state and its memoized return value (`pred.ret`). -/
structure PredInst where
  state : PredState
  ret : Val
deriving Repr

/-- A predicate key `(name, args, kwargs)`. -/
structure PredKey where
  name : String
  args : List Val
  kwargs : List (String × Val)
deriving DecidableEq, Repr

/-- The environment `require_byname` consults: `self.vars.predicates`
(instances by key) and `self.vars.pred_class` (registered classes,
modelled by whether a name is registered). -/
structure PredEnv where
  predicates : List (PredKey × PredInst)
  pred_class : List PredKey

/-- `Predicate.mkname` (src/predicates/predicates.py lines 11-13): its
parameter is `pred_name` but its body returns `(name, args,
tuple(sorted(kwargs.items())))`, and no binding for `name` is in scope,
so every call raises `NameError: name 'name' is not defined`. -/
def mkname (pred_name : String) (args : List Val) (kwargs : List (String × Val)) :
    Except Exc PredKey :=
  Except.error (Exc.nameError "name")

/-- `Predicate.require_byname(name, args, kwargs)` (lines 30-44): build
the key with `mkname`, look the instance up; a found instance in
`solving` state fails the circular-dependency assert; otherwise the
memoized instance is linked and its `ret` returned; an absent instance
requires a registered class (else the `undefined predicate name`
assert) and is created and solved — `Predicate.solve` is
`assert False, "unimplemented!"` (lines 52-55). -/
def require_byname (env : PredEnv) (name : String) (args : List Val)
    (kwargs : List (String × Val)) : Except Exc Val :=
  match mkname name args kwargs with
  | Except.error e => Except.error e
  | Except.ok key =>
      match (env.predicates.find? (fun e => e.1 == key)) with
      | some e =>
          if e.2.state = PredState.solving then
            Except.error (Exc.assertionError "Circular dependency!  Hope the stack trace helps find where it is")
          else
            -- `self.child_add(pred)` precedes `return pred.ret`, and no
            -- `child_add` method exists anywhere in the class
            Except.error Exc.attributeError
      | Option.none =>
          if env.pred_class.any (fun k => k == key) then
            -- `klass(self.vars, args, kwargs)` runs `Predicate.__init__`,
            -- whose own `self.mkname(...)` call raises NameError first
            Except.error (Exc.nameError "name")
          else Except.error (Exc.assertionError "undefined predicate name")

/-- A function whose single engine call is one `choose` over `opts`. -/
def oneChoose (opts : List Val) : Prog :=
  Prog.choose opts Prog.ret

/-- Strict order on path entries: branch indices in numeric order
(if-any references are ordered by id and placed after indices). -/
def pentLtB : PathEntry → PathEntry → Bool
  | PathEntry.idx i, PathEntry.idx j => i < j
  | PathEntry.idx _, PathEntry.ifany _ => true
  | PathEntry.ifany _, PathEntry.idx _ => false
  | PathEntry.ifany i, PathEntry.ifany j => i < j

/-- Strict lexicographic order on choice paths. -/
def pathLt : List PathEntry → List PathEntry → Bool
  | _, [] => false
  | [], _ :: _ => true
  | a :: as, b :: bs => pentLtB a b || (a == b && pathLt as bs)

/-- Every intermediate component of the path is a nonempty segment
bound to a dict: the traversal of `_traverse` reaches the final
component without creating anything and without a type conflict. -/
def leadDirsOk : Dict → List String → Bool
  | _, [] => true
  | _, [_] => true
  | d, k :: k2 :: rest =>
      (k != "") &&
        (match alGet d (some k) with
          | some (VVal.dir sub) => leadDirsOk sub (k2 :: rest)
          | _ => false)

/-- The value bound at a path, read without side effects (the empty
path denotes the root dict). -/
def getAtD : Dict → List String → Option VVal
  | d, [] => some (VVal.dir d)
  | d, [k] => alGet d (some k)
  | d, k :: k2 :: rest =>
      match alGet d (some k) with
      | some (VVal.dir sub) => getAtD sub (k2 :: rest)
      | _ => Option.none

/-- The traversal of the path's intermediate components meets a
non-dict value (the type-conflict situation of `_traverse`). -/
def hitsLeafInter : Dict → List String → Bool
  | d, k :: k2 :: rest =>
      (match alGet d (some k) with
        | some (VVal.leaf _) => true
        | some (VVal.dir sub) => hitsLeafInter sub (k2 :: rest)
        | Option.none => false)
  | _, _ => false

/-- The six (value, choice path) pairs yielded for `TestSolver.fn`. -/
def c3YieldList : List (Val × List PathEntry) :=
  [(Val.triple (Val.int 2) (Val.int 1) (Val.int 0), [PathEntry.idx 1, PathEntry.idx 0]),
   (Val.triple (Val.int 3) (Val.int 1) (Val.int 0), [PathEntry.idx 2, PathEntry.idx 0]),
   (Val.triple (Val.int 1) (Val.int 3) (Val.int 0), [PathEntry.idx 0, PathEntry.idx 2]),
   (Val.triple (Val.int 2) (Val.int 3) (Val.int 0), [PathEntry.idx 1, PathEntry.idx 2]),
   (Val.triple (Val.int 3) (Val.int 2) (Val.int 1),
     [PathEntry.idx 2, PathEntry.idx 1, PathEntry.idx 0]),
   (Val.triple (Val.int 1) (Val.int 2) (Val.int 3),
     [PathEntry.idx 0, PathEntry.idx 1, PathEntry.idx 2])]

/-- A store with values at `x` and `y`, a watcher on each. -/
def c6St : VarStore :=
  { root := [(some "x", VVal.leaf (Val.int 1)), (some "y", VVal.leaf (Val.int 2))],
    watches := [(["x"], [0]), (["y"], [1])],
    nextId := 2 }

/-- A store whose path `a` is bound to a container holding `b`. -/
def c7St : VarStore :=
  { root := [(some "a", VVal.dir [(some "b", VVal.leaf (Val.int 5))])],
    watches := [],
    nextId := 0 }

/-- A store whose path `a` is bound to a non-container value. -/
def c7StLeaf : VarStore :=
  { root := [(some "a", VVal.leaf (Val.int 1))],
    watches := [],
    nextId := 0 }

/-- A store with a value at `x` watched by handle 0. -/
def c10St : VarStore :=
  { root := [(some "x", VVal.leaf (Val.int 1))],
    watches := [(["x"], [0])],
    nextId := 1 }

/-- An empty store with a single watcher registered on the root path. -/
def c6RootWatchSt : VarStore :=
  { root := [], watches := [([], [0])], nextId := 1 }

/-- A store with an existing empty directory `a`, watched by handle 3. -/
def c6DirSt : VarStore :=
  { root := [(some "a", VVal.dir [])], watches := [(["a"], [3])], nextId := 4 }


/-- C1: a `choose()` call at a site beyond the recorded prefix returns
`options[0]`, appends index 0 to the current path, and enqueues exactly
one pending path per remaining option index 1..n-1, each extending the
path-so-far with that index; a call at a site still covered by the
recorded path returns `options[path[site]]` and enqueues nothing. -/
theorem choose_branch_and_replay (opts : List Val) (st : SolverSt) :
    (∀ (v : Val) (tl : List Val), st.choices.length ≤ st.pos → opts = v :: tl →
      (chooseStep opts st).1 = Except.ok v ∧
      (chooseStep opts st).2.choices = st.choices ++ [PathEntry.idx 0] ∧
      (chooseStep opts st).2.choice_stack =
        st.choice_stack ++ ((List.range opts.length).drop 1).map
          (fun i => st.choices ++ [PathEntry.idx i]))
    ∧ (∀ (j : Nat) (v : Val), st.choices.get? st.pos = some (PathEntry.idx j) →
        opts.get? j = some v →
        chooseStep opts st = (Except.ok v, { st with pos := st.pos + 1 })) := by
  constructor
  · rintro v tl hlen rfl
    have hnone : st.choices.get? st.pos = Option.none := List.get?_eq_none.mpr hlen
    refine ⟨?_, ?_, ?_⟩ <;> simp only [chooseStep, hnone]
  · intro j v hj hv
    simp only [chooseStep, hj, hv]

/-- C1 witness: a fresh site over (5, 7) returns 5, records index 0 and
enqueues the extension with index 1; a replayed site with recorded
index 1 returns 7 and enqueues nothing. -/
theorem choose_branch_and_replay_witness :
    ((chooseStep [Val.int 5, Val.int 7] (mkRunSt [] [] [])).1 = Except.ok (Val.int 5) ∧
      (chooseStep [Val.int 5, Val.int 7] (mkRunSt [] [] [])).2.choices = [PathEntry.idx 0] ∧
      (chooseStep [Val.int 5, Val.int 7] (mkRunSt [] [] [])).2.choice_stack =
        [[PathEntry.idx 1]]) ∧
    chooseStep [Val.int 5, Val.int 7] (mkRunSt [PathEntry.idx 1] [] []) =
      (Except.ok (Val.int 7), { mkRunSt [PathEntry.idx 1] [] [] with pos := 1 }) := by
  constructor
  · have h := (choose_branch_and_replay [Val.int 5, Val.int 7] (mkRunSt [] [] [])).1
      (Val.int 5) [Val.int 7] (by decide) rfl
    exact ⟨h.1, h.2.1, h.2.2⟩
  · exact (choose_branch_and_replay [Val.int 5, Val.int 7]
      (mkRunSt [PathEntry.idx 1] [] [])).2 1 (Val.int 7) rfl rfl

/-- C4: `solve` on `TestSolver.fn` yields exactly the six tuples
(2,1,0), (3,1,0), (1,3,0), (2,3,0), (3,2,1), (1,2,3), in this order,
and the search terminates (the deque drains). -/
theorem solve_golden_triples :
    solve solverTestFn 40 = SolveOut.done
      [Val.triple (Val.int 2) (Val.int 1) (Val.int 0),
       Val.triple (Val.int 3) (Val.int 1) (Val.int 0),
       Val.triple (Val.int 1) (Val.int 3) (Val.int 0),
       Val.triple (Val.int 2) (Val.int 3) (Val.int 0),
       Val.triple (Val.int 3) (Val.int 2) (Val.int 1),
       Val.triple (Val.int 1) (Val.int 2) (Val.int 3)] := by
  rfl

/-- C2 failing run: in `nestedIfAny` the expansion of the outer if
block choosing c = 2 survives, so by the documented if-any/else-none
semantics the else block must never run; the engine instead never
yields "survived" and runs the else block twice, because the `choose`
inside the nested pair bumps only the inner branch counter while both
surviving inner branches decrement the outer one. -/
theorem nestedIfAny_else_runs_twice :
    solve nestedIfAny 20 = SolveOut.done [Val.str "else", Val.str "else"] := by
  rfl

/-- C5 counterexample: a function raising `ChooseException` — an
exception other than `PruneException` — does not propagate out of
`solve`: the handler at lines 60-62 silently discards that universe
and the search completes normally instead of aborting. -/
theorem chooseException_swallowed_not_fatal :
    solve (Prog.raiseExc Exc.chooseExc) 2 = SolveOut.done [] ∧
    ∀ (vs : List Val) (e : Exc),
      solve (Prog.raiseExc Exc.chooseExc) 2 ≠ SolveOut.fatal vs e := by
  refine ⟨rfl, ?_⟩
  intro vs e h
  rw [show solve (Prog.raiseExc Exc.chooseExc) 2 = SolveOut.done [] from rfl] at h
  exact SolveOut.noConfusion h

/-- C5 (amended): one drain step of `solve`: the loop swallows exactly
`PruneException` and `ChooseException` — a universe ending in either is
discarded and iteration continues on the remaining deque and shared
state; a universe ending in any other exception makes the whole search
abort with that exception, yielding nothing further. -/
theorem solve_swallows_prune_and_choose (fn : Prog) (fuel : Nat) (p : List PathEntry)
    (rest : List (List PathEntry)) (heap : List IfAnyData) :
    (∀ st1, runProg fn (mkRunSt p rest heap) = (Except.error Exc.prune, st1) →
      solveLoop fn (fuel + 1) ⟨p :: rest, heap⟩ =
        solveLoop fn fuel ⟨st1.choice_stack, st1.heap⟩)
    ∧ (∀ st1, runProg fn (mkRunSt p rest heap) = (Except.error Exc.chooseExc, st1) →
      solveLoop fn (fuel + 1) ⟨p :: rest, heap⟩ =
        solveLoop fn fuel ⟨st1.choice_stack, st1.heap⟩)
    ∧ (∀ (e : Exc) st1, runProg fn (mkRunSt p rest heap) = (Except.error e, st1) →
        e ≠ Exc.prune → e ≠ Exc.chooseExc →
        solveLoop fn (fuel + 1) ⟨p :: rest, heap⟩ = SolveOut.fatal [] e) := by
  refine ⟨?_, ?_, ?_⟩
  · intro st1 h
    simp only [solveLoop, h]
  · intro st1 h
    simp only [solveLoop, h]
  · intro e st1 h hne hnc
    cases e with
    | prune => exact absurd rfl hne
    | chooseExc => exact absurd rfl hnc
    | indexError => simp only [solveLoop, h]
    | typeError => simp only [solveLoop, h]
    | keyError => simp only [solveLoop, h]
    | valueError => simp only [solveLoop, h]
    | attributeError => simp only [solveLoop, h]
    | nameError s => simp only [solveLoop, h]
    | assertionError s => simp only [solveLoop, h]
    | userExc s => simp only [solveLoop, h]

/-- C5 witness: a pruning function and a ChooseException-raising
function each lose only their own universe and the loop continues; a
function raising any other exception aborts the search with it. -/
theorem solve_swallows_prune_and_choose_witness :
    solveLoop Prog.pruneCall 1 ⟨[[]], []⟩ = solveLoop Prog.pruneCall 0 ⟨[], []⟩ ∧
    solveLoop (Prog.raiseExc Exc.chooseExc) 1 ⟨[[]], []⟩ =
      solveLoop (Prog.raiseExc Exc.chooseExc) 0 ⟨[], []⟩ ∧
    solveLoop (Prog.raiseExc (Exc.userExc "boom")) 1 ⟨[[]], []⟩ =
      SolveOut.fatal [] (Exc.userExc "boom") := by
  refine ⟨?_, ?_, ?_⟩
  · exact (solve_swallows_prune_and_choose Prog.pruneCall 0 [] [] []).1
      (mkRunSt [] [] []) rfl
  · exact (solve_swallows_prune_and_choose (Prog.raiseExc Exc.chooseExc) 0 [] [] []).2.1
      (mkRunSt [] [] []) rfl
  · exact (solve_swallows_prune_and_choose
      (Prog.raiseExc (Exc.userExc "boom")) 0 [] [] []).2.2
      (Exc.userExc "boom") (mkRunSt [] [] []) rfl (by decide) (by decide)

/-- C9: a `choose(())` with empty options at a fresh site returns
IndexError (`choices[0]` on an empty sequence) and enqueues no pending
path, and that IndexError is not caught by `solve`: the search aborts
fatally with no further universes explored. -/
theorem choose_empty_options_fatal :
    (∀ (st : SolverSt), st.choices.length ≤ st.pos →
      (chooseStep [] st).1 = Except.error Exc.indexError ∧
      (chooseStep [] st).2.choice_stack = st.choice_stack)
    ∧ (∀ (k : Val → Prog) (fuel : Nat) (rest : List (List PathEntry))
        (heap : List IfAnyData),
        solveLoop (Prog.choose [] k) (fuel + 1) ⟨[] :: rest, heap⟩ =
          SolveOut.fatal [] Exc.indexError) := by
  constructor
  · intro st hlen
    have hnone : st.choices.get? st.pos = Option.none := List.get?_eq_none.mpr hlen
    constructor <;> simp only [chooseStep, hnone, List.length_nil, List.range_zero,
      List.drop_nil, List.map_nil, List.append_nil]
  · intro k fuel rest heap
    simp only [solveLoop, runProg, chooseStep, mkRunSt, List.get?_nil, List.length_nil,
      List.range_zero, List.drop_nil, List.map_nil, List.append_nil]

/-- C9 witness: the empty-options behaviour at the initial state, and
the fatal abort of a one-call program. -/
theorem choose_empty_options_fatal_witness :
    ((chooseStep [] (mkRunSt [] [] [])).1 = Except.error Exc.indexError ∧
      (chooseStep [] (mkRunSt [] [] [])).2.choice_stack = []) ∧
    solveLoop (Prog.choose [] Prog.ret) 1 ⟨[[]], []⟩ =
      SolveOut.fatal [] Exc.indexError := by
  constructor
  · exact (choose_empty_options_fatal.1 (mkRunSt [] [] []) (by decide))
  · exact choose_empty_options_fatal.2 Prog.ret 0 [] []

/-- C3 counterexample: under `solve`, `TestSolver.fn` yields the result
with choice path [1, 0] first and the result with choice path [0, 2]
third, although [0, 2] is lexicographically smaller than [1, 0]: the
FIFO drain order is not the lexicographic order of the full paths. -/
theorem yield_order_not_lexicographic :
    solvePaths solverTestFn 40 = SolveOutP.done c3YieldList ∧
    c3YieldList.get? 0 =
      some (Val.triple (Val.int 2) (Val.int 1) (Val.int 0),
        [PathEntry.idx 1, PathEntry.idx 0]) ∧
    c3YieldList.get? 2 =
      some (Val.triple (Val.int 1) (Val.int 3) (Val.int 0),
        [PathEntry.idx 0, PathEntry.idx 2]) ∧
    pathLt [PathEntry.idx 0, PathEntry.idx 2] [PathEntry.idx 1, PathEntry.idx 0] = true := by
  exact ⟨rfl, rfl, rfl, rfl⟩

theorem range_map_getD (l : List Val) :
    (List.range l.length).map (fun i => l.getD i Val.none) = l := by
  induction l with
  | nil => simp
  | cons a tl ih =>
    rw [List.length_cons, List.range_succ_eq_map, List.map_cons, List.map_map]
    simp only [Function.comp_def, Nat.succ_eq_add_one, List.getD_cons_succ,
      List.getD_cons_zero]
    rw [ih]

theorem solveLoopPaths_replay_singles (opts : List Val) :
    ∀ (ix : List Nat) (fuel : Nat) (heap : List IfAnyData),
      (∀ i ∈ ix, i < opts.length) → ix.length < fuel →
      solveLoopPaths (oneChoose opts) fuel ⟨ix.map (fun i => [PathEntry.idx i]), heap⟩ =
        SolveOutP.done (ix.map (fun i => (opts.getD i Val.none, [PathEntry.idx i]))) := by
  intro ix
  induction ix with
  | nil =>
    intro fuel heap _ hf
    cases fuel with
    | zero => omega
    | succ f => simp [solveLoopPaths]
  | cons i tl ih =>
    intro fuel heap hb hf
    cases fuel with
    | zero => omega
    | succ f =>
      have hi : i < opts.length := hb i (List.mem_cons_self i tl)
      have hv : opts.get? i = some (opts.get ⟨i, hi⟩) := List.get?_eq_get hi
      have hgd : opts.getD i Val.none = opts.get ⟨i, hi⟩ := by
        rw [List.getD_eq_get?, hv]
        rfl
      have hrest : ∀ j ∈ tl, j < opts.length := fun j hj => hb j (List.mem_cons_of_mem i hj)
      have hfr : tl.length < f := by
        simpa [List.length_cons, Nat.succ_lt_succ_iff] using hf
      simp only [List.map_cons, solveLoopPaths, runProg, oneChoose, chooseStep, mkRunSt,
        List.get?_cons_zero, hv]
      rw [show Prog.choose opts Prog.ret = oneChoose opts from rfl, ih f heap hrest hfr]
      have hx : opts[i]?.getD Val.none = opts[i] := by
        rw [List.getElem?_eq_getElem hi, Option.getD_some]
      simp [consValP, hx]

/-- C3 (amended): results are yielded in the FIFO order their pending
prefixes were enqueued, which for a function making a single `choose`
over n options is the lexicographic order of the paths: the results are
the options in index order with paths [0], [1], ..., [n-1], pairwise
lexicographically increasing. (With several call sites the FIFO order
is not lexicographic, see the counterexample.) -/
theorem single_choose_lexicographic (v : Val) (tl : List Val) :
    ∃ l, solvePaths (oneChoose (v :: tl)) (tl.length + 2) = SolveOutP.done l ∧
      l.map Prod.fst = v :: tl ∧
      l.map Prod.snd = (List.range (v :: tl).length).map (fun i => [PathEntry.idx i]) ∧
      List.Pairwise (fun a b => pathLt a.2 b.2 = true) l := by
  have hsingle : ∀ i j : Nat, i < j →
      pathLt [PathEntry.idx i] [PathEntry.idx j] = true := by
    intro i j h
    simp [pathLt, pentLtB, h]
  refine ⟨(List.range (v :: tl).length).map
      (fun i => ((v :: tl).getD i Val.none, [PathEntry.idx i])), ?_, ?_, ?_, ?_⟩
  · have hdrop : ∀ j ∈ (List.range (v :: tl).length).drop 1, j < (v :: tl).length :=
      fun j hj => List.mem_range.mp (List.mem_of_mem_drop hj)
    have hlen : ((List.range (v :: tl).length).drop 1).length < tl.length + 1 := by
      simp [List.length_drop]
    have hmain := solveLoopPaths_replay_singles (v :: tl)
      ((List.range (v :: tl).length).drop 1) (tl.length + 1) [] hdrop hlen
    simp only [solvePaths, solveLoopPaths, runProg, oneChoose, chooseStep, mkRunSt,
      List.get?_nil, List.nil_append]
    rw [show Prog.choose (v :: tl) Prog.ret = oneChoose (v :: tl) from rfl, hmain]
    simp only [consValP, List.length_cons, List.range_succ_eq_map, List.drop_succ_cons,
      List.drop_zero, List.drop_nil, List.map_cons, List.map_map, List.getD_cons_zero]
  · rw [List.map_map]
    exact range_map_getD (v :: tl)
  · rw [List.map_map]
    rfl
  · rw [List.pairwise_map]
    exact (List.pairwise_lt_range (v :: tl).length).imp (fun h => hsingle _ _ h)

theorem alGet_alSet_self (k : Option String) (v : VVal) :
    ∀ d : Dict, alGet (alSet d k v) k = some v := by
  intro d
  induction d with
  | nil => simp [alSet, alGet]
  | cons e rest ih =>
    cases he : e.1 == k
    · simp only [alSet, he, Bool.false_eq_true, if_false]
      simp only [alGet, List.find?] at ih ⊢
      rw [he]
      exact ih
    · simp [alSet, he, alGet, List.find?]

theorem wFind_wSet_self (p : VPath) (l : List Nat) :
    ∀ w : List (VPath × List Nat), wFind (wSet w p l) p = some l := by
  intro w
  induction w with
  | nil => simp [wSet, wFind]
  | cons e rest ih =>
    cases he : e.1 == p
    · simp only [wSet, he, Bool.false_eq_true, if_false]
      simp only [wFind, List.find?] at ih ⊢
      rw [he]
      exact ih
    · simp [wSet, he, wFind, List.find?]

theorem putGo_notifs : ∀ (p : List String) (cur : VPath) (d : Dict) (v : Val),
    leadDirsOk d p = true →
    ∃ d2, putGo cur d p v = Except.ok (d2, [cur ++ p]) := by
  intro p
  induction p with
  | nil =>
    intro cur d v _
    exact ⟨alSet d Option.none (VVal.leaf v), by simp [putGo]⟩
  | cons k rest ih =>
    intro cur d v hld
    cases rest with
    | nil => exact ⟨alSet d (some k) (VVal.leaf v), by simp [putGo]⟩
    | cons k2 rest2 =>
      simp only [leadDirsOk] at hld
      obtain ⟨hk, hm⟩ := Bool.and_eq_true_iff.mp hld
      have hk' : ¬ k = "" := by simpa using hk
      cases hget : alGet d (some k) with
      | none => rw [hget] at hm; simp at hm
      | some vv =>
        cases vv with
        | leaf w => rw [hget] at hm; simp at hm
        | dir sub =>
          rw [hget] at hm
          simp only [] at hm
          obtain ⟨sub2, hrec⟩ := ih (cur ++ [k]) sub v hm
          refine ⟨alSet d (some k) (VVal.dir sub2), ?_⟩
          simp only [putGo, if_neg hk', hget, hrec]
          rw [List.append_cons cur k (k2 :: rest2)]

theorem rmGo_notifs : ∀ (p : List String) (cur : VPath) (d d2 : Dict) (n : List VPath),
    rmGo cur d p = Except.ok (d2, n) → n = [cur ++ p] := by
  intro p
  induction p with
  | nil =>
    intro cur d d2 n h
    unfold rmGo at h
    split at h
    · simp only [Except.ok.injEq, Prod.mk.injEq] at h
      rw [← h.2]
      simp
    · cases h
  | cons k rest ih =>
    intro cur d d2 n h
    cases rest with
    | nil =>
      unfold rmGo at h
      split at h
      · simp only [Except.ok.injEq, Prod.mk.injEq] at h
        exact h.2.symm
      · cases h
    | cons k2 rest2 =>
      by_cases hk : k = ""
      · simp only [rmGo, if_pos hk] at h
        exact Except.noConfusion h
      · cases hget : alGet d (some k) with
        | none =>
          simp only [rmGo, if_neg hk, hget] at h
          exact Except.noConfusion h
        | some vv =>
          cases vv with
          | leaf w =>
            simp only [rmGo, if_neg hk, hget] at h
            exact Except.noConfusion h
          | dir sub =>
            cases hrec : rmGo (cur ++ [k]) sub (k2 :: rest2) with
            | error e =>
              simp only [rmGo, if_neg hk, hget, hrec] at h
              exact Except.noConfusion h
            | ok pr =>
              obtain ⟨sub2, notifs⟩ := pr
              simp only [rmGo, if_neg hk, hget, hrec, Except.ok.injEq,
                Prod.mk.injEq] at h
              rw [← h.2, ih (cur ++ [k]) sub sub2 notifs hrec]
              rw [List.append_cons cur k (k2 :: rest2)]

theorem mkdirGo_notifs : ∀ (p : List String) (cur : VPath) (d d2 : Dict) (n : List VPath),
    leadDirsOk d p = true →
    mkdirGo cur d p = Except.ok (d2, n) → n = [cur ++ p] ∨ n = [] := by
  intro p
  induction p with
  | nil =>
    intro cur d d2 n _ h
    unfold mkdirGo at h
    cases hget : alGet d Option.none with
    | none =>
      rw [hget] at h
      simp only [Except.ok.injEq, Prod.mk.injEq] at h
      left
      rw [← h.2]
      simp
    | some vv =>
      cases vv with
      | leaf w => rw [hget] at h; cases h
      | dir sub =>
        rw [hget] at h
        simp only [Except.ok.injEq, Prod.mk.injEq] at h
        right
        exact h.2.symm
  | cons k rest ih =>
    intro cur d d2 n hld h
    cases rest with
    | nil =>
      unfold mkdirGo at h
      cases hget : alGet d (some k) with
      | none =>
        rw [hget] at h
        simp only [Except.ok.injEq, Prod.mk.injEq] at h
        left
        exact h.2.symm
      | some vv =>
        cases vv with
        | leaf w => rw [hget] at h; cases h
        | dir sub =>
          rw [hget] at h
          simp only [Except.ok.injEq, Prod.mk.injEq] at h
          right
          exact h.2.symm
    | cons k2 rest2 =>
      simp only [leadDirsOk] at hld
      obtain ⟨hk, hm⟩ := Bool.and_eq_true_iff.mp hld
      have hk' : ¬ k = "" := by simpa using hk
      cases hget : alGet d (some k) with
      | none => rw [hget] at hm; simp at hm
      | some vv =>
        cases vv with
        | leaf w => rw [hget] at hm; simp at hm
        | dir sub =>
          rw [hget] at hm
          simp only [] at hm
          cases hrec : mkdirGo (cur ++ [k]) sub (k2 :: rest2) with
          | error e =>
            simp only [mkdirGo, if_neg hk', hget, hrec] at h
            exact Except.noConfusion h
          | ok pr =>
            obtain ⟨sub2, notifs⟩ := pr
            simp only [mkdirGo, if_neg hk', hget, hrec, Except.ok.injEq,
              Prod.mk.injEq] at h
            rcases ih (cur ++ [k]) sub sub2 notifs hm hrec with h1 | h1
            · left
              rw [← h.2, h1]
              rw [List.append_cons cur k (k2 :: rest2)]
            · right
              rw [← h.2, h1]

theorem putGo_leafInter : ∀ (p : List String) (cur : VPath) (d : Dict) (v : Val),
    (∀ s ∈ p, s ≠ "") → hitsLeafInter d p = true →
    putGo cur d p v = Except.error Exc.keyError := by
  intro p
  induction p with
  | nil => intro cur d v _ hh; simp [hitsLeafInter] at hh
  | cons k rest ih =>
    intro cur d v hs hh
    cases rest with
    | nil => simp [hitsLeafInter] at hh
    | cons k2 rest2 =>
      have hk : ¬ k = "" := hs k (List.mem_cons_self k (k2 :: rest2))
      simp only [hitsLeafInter] at hh
      cases hget : alGet d (some k) with
      | none => rw [hget] at hh; simp at hh
      | some vv =>
        cases vv with
        | leaf w => simp only [putGo, if_neg hk, hget]
        | dir sub =>
          rw [hget] at hh
          simp only [] at hh
          have hrec := ih (cur ++ [k]) sub v
            (fun s hsm => hs s (List.mem_cons_of_mem k hsm)) hh
          simp only [putGo, if_neg hk, hget, hrec]

theorem mkdirGo_leafFinal : ∀ (p : List String) (cur : VPath) (d : Dict) (w : Val),
    leadDirsOk d p = true → getAtD d p = some (VVal.leaf w) →
    mkdirGo cur d p = Except.error Exc.keyError := by
  intro p
  induction p with
  | nil => intro cur d w _ hg; simp [getAtD] at hg
  | cons k rest ih =>
    intro cur d w hld hg
    cases rest with
    | nil =>
      simp only [getAtD] at hg
      simp only [mkdirGo, hg]
    | cons k2 rest2 =>
      simp only [leadDirsOk] at hld
      obtain ⟨hk, hm⟩ := Bool.and_eq_true_iff.mp hld
      have hk' : ¬ k = "" := by simpa using hk
      simp only [getAtD] at hg
      cases hget : alGet d (some k) with
      | none => rw [hget] at hm; simp at hm
      | some vv =>
        cases vv with
        | leaf w2 => rw [hget] at hm; simp at hm
        | dir sub =>
          rw [hget] at hm
          simp only [] at hm
          rw [hget] at hg
          simp only [] at hg
          have hrec := ih (cur ++ [k]) sub w hm hg
          simp only [mkdirGo, if_neg hk', hget, hrec]

theorem putGo_overwriteDir : ∀ (p : List String) (cur : VPath) (d : Dict) (v : Val)
    (e : Dict), leadDirsOk d p = true → getAtD d p = some (VVal.dir e) → p ≠ [] →
    ∃ d2, putGo cur d p v = Except.ok (d2, [cur ++ p]) ∧
      getAtD d2 p = some (VVal.leaf v) := by
  intro p
  induction p with
  | nil => intro _ _ _ _ _ _ hne; exact absurd rfl hne
  | cons k rest ih =>
    intro cur d v e hld hg _
    cases rest with
    | nil =>
      refine ⟨alSet d (some k) (VVal.leaf v), ?_, ?_⟩
      · simp [putGo]
      · simp only [getAtD]
        exact alGet_alSet_self (some k) (VVal.leaf v) d
    | cons k2 rest2 =>
      simp only [leadDirsOk] at hld
      obtain ⟨hk, hm⟩ := Bool.and_eq_true_iff.mp hld
      have hk' : ¬ k = "" := by simpa using hk
      simp only [getAtD] at hg
      cases hget : alGet d (some k) with
      | none => rw [hget] at hm; simp at hm
      | some vv =>
        cases vv with
        | leaf w => rw [hget] at hm; simp at hm
        | dir sub =>
          rw [hget] at hm
          simp only [] at hm
          rw [hget] at hg
          simp only [] at hg
          obtain ⟨sub2, hrec, hgd⟩ := ih (cur ++ [k]) sub v e hm hg (by simp)
          refine ⟨alSet d (some k) (VVal.dir sub2), ?_, ?_⟩
          · simp only [putGo, if_neg hk', hget, hrec]
            rw [List.append_cons cur k (k2 :: rest2)]
          · simp only [getAtD, alGet_alSet_self (some k) (VVal.dir sub2) d]
            exact hgd

theorem varstore_put_invoked (st : VarStore) (p : VPath) (v : Val)
    (hld : leadDirsOk st.root p = true) :
    ∃ st2, VarStore.put st p v = Except.ok (st2, watchersAt st.watches p) := by
  obtain ⟨d2, h⟩ := putGo_notifs p [] st.root v hld
  refine ⟨{ st with root := d2 }, ?_⟩
  simp only [VarStore.put, List.nil_append] at h ⊢
  rw [h]
  simp [invokedIds, watchersAt]

/-- C6 counterexample: with a watcher registered on the root path, a
put at ("a", "b") creates the missing intermediate dict "a" and
`_traverse` fires `_check_watch(curpath)` for its parent — so the
watcher at the ancestor path () is invoked by a mutation at ("a", "b");
moreover mkdir at an already existing directory invokes no watcher at
all, not even the one registered exactly there. -/
theorem varstore_ancestor_watcher_invoked :
    VarStore.put c6RootWatchSt ["a", "b"] (Val.int 1) =
      Except.ok
        ({ c6RootWatchSt with
            root := [(some "a", VVal.dir [(some "b", VVal.leaf (Val.int 1))])] }, [0]) ∧
    ([] : VPath) ≠ ["a", "b"] ∧
    VarStore.mkdir c6DirSt ["a"] = Except.ok (c6DirSt, []) := by
  exact ⟨rfl, by decide, rfl⟩

/-- C6 (amended): when every intermediate component of P already
exists as a directory, `put` at P invokes exactly the watchers
registered at exactly P; `rm` at P, on success, invokes exactly the
watchers at P; `mkdir` at P invokes either exactly the watchers at P
(when it creates P) or none (when P already exists as a directory).
Only when `put`/`mkdir` create a missing intermediate directory are
watchers of that directory's parent path additionally invoked. -/
theorem varstore_notify_exact_path (st : VarStore) (p : VPath) :
    (∀ v, leadDirsOk st.root p = true →
      ∃ st2, VarStore.put st p v = Except.ok (st2, watchersAt st.watches p))
    ∧ (∀ st2 inv, VarStore.rm st p = Except.ok (st2, inv) →
        inv = watchersAt st.watches p)
    ∧ (∀ st2 inv, leadDirsOk st.root p = true →
        VarStore.mkdir st p = Except.ok (st2, inv) →
        inv = watchersAt st.watches p ∨ inv = []) := by
  refine ⟨fun v hld => varstore_put_invoked st p v hld, ?_, ?_⟩
  · intro st2 inv h
    cases hrm : rmGo [] st.root p with
    | error e =>
      simp only [VarStore.rm, hrm] at h
      exact Except.noConfusion h
    | ok pr =>
      obtain ⟨d2, n⟩ := pr
      simp only [VarStore.rm, hrm, Except.ok.injEq, Prod.mk.injEq] at h
      have hn := rmGo_notifs p [] st.root d2 n hrm
      rw [← h.2, hn]
      simp [invokedIds, watchersAt]
  · intro st2 inv hld h
    cases hmk : mkdirGo [] st.root p with
    | error e =>
      simp only [VarStore.mkdir, hmk] at h
      exact Except.noConfusion h
    | ok pr =>
      obtain ⟨d2, n⟩ := pr
      simp only [VarStore.mkdir, hmk, Except.ok.injEq, Prod.mk.injEq] at h
      rcases mkdirGo_notifs p [] st.root d2 n hld hmk with hn | hn
      · left
        rw [← h.2, hn]
        simp [invokedIds, watchersAt]
      · right
        rw [← h.2, hn]
        simp [invokedIds]

/-- C6 witness: on a flat store with watchers on "x" and "y", put at
"x" invokes exactly the watcher at "x", rm at "y" exactly the watcher
at "y", and mkdir of a fresh "z" exactly the (empty) watcher list at
"z". -/
theorem varstore_notify_exact_path_witness :
    (∃ st2, VarStore.put c6St ["x"] (Val.int 7) =
      Except.ok (st2, watchersAt c6St.watches ["x"])) ∧
    ([1] : List Nat) = watchersAt c6St.watches ["y"] ∧
    (([] : List Nat) = watchersAt c6St.watches ["z"] ∨ ([] : List Nat) = []) := by
  refine ⟨(varstore_notify_exact_path c6St ["x"]).1 (Val.int 7) rfl, ?_, ?_⟩
  · exact (varstore_notify_exact_path c6St ["y"]).2.1
      { c6St with root := [(some "x", VVal.leaf (Val.int 1))] } [1] rfl
  · exact (varstore_notify_exact_path c6St ["z"]).2.2
      { c6St with root := c6St.root ++ [(some "z", VVal.dir [])] } [] rfl rfl

/-- C7 counterexample: with path "a" bound to a container holding "b",
`put("a", 7)` succeeds and silently replaces the whole container with
the scalar 7 (invoking the watchers at "a"), instead of failing with a
type-conflict error as the claim requires. -/
theorem varstore_put_over_container_succeeds :
    VarStore.put c7St ["a"] (Val.int 7) =
      Except.ok ({ c7St with root := [(some "a", VVal.leaf (Val.int 7))] }, []) := by
  exact rfl

/-- C7 (amended): a type conflict on an intermediate component — a
non-container met where `_traverse` needs a container — makes `put`
raise KeyError, and `mkdir` at a path whose final component holds a
non-container raises KeyError; but `put` at a path whose final
component holds a container does not fail: it silently replaces the
container with the new value. -/
theorem varstore_type_conflict (st : VarStore) (p : VPath) :
    (∀ v, (∀ s ∈ p, s ≠ "") → hitsLeafInter st.root p = true →
      VarStore.put st p v = Except.error Exc.keyError)
    ∧ (∀ w, leadDirsOk st.root p = true → getAtD st.root p = some (VVal.leaf w) →
        VarStore.mkdir st p = Except.error Exc.keyError)
    ∧ (∀ v e, leadDirsOk st.root p = true → getAtD st.root p = some (VVal.dir e) →
        p ≠ [] → ∃ st2 inv, VarStore.put st p v = Except.ok (st2, inv) ∧
          getAtD st2.root p = some (VVal.leaf v)) := by
  refine ⟨?_, ?_, ?_⟩
  · intro v hs hh
    have h := putGo_leafInter p [] st.root v hs hh
    simp only [VarStore.put, h]
  · intro w hld hg
    have h := mkdirGo_leafFinal p [] st.root w hld hg
    simp only [VarStore.mkdir, h]
  · intro v e hld hg hne
    obtain ⟨d2, hok, hat⟩ := putGo_overwriteDir p [] st.root v e hld hg hne
    refine ⟨{ st with root := d2 }, invokedIds st.watches [p], ?_, hat⟩
    simp only [VarStore.put, hok, List.nil_append]

/-- C7 witness: put under a leaf intermediate and mkdir over a leaf
both raise KeyError; put over a container succeeds and replaces it. -/
theorem varstore_type_conflict_witness :
    VarStore.put c7StLeaf ["a", "b"] (Val.int 3) = Except.error Exc.keyError ∧
    VarStore.mkdir c7StLeaf ["a"] = Except.error Exc.keyError ∧
    (∃ st2 inv, VarStore.put c7St ["a"] (Val.int 7) = Except.ok (st2, inv) ∧
      getAtD st2.root ["a"] = some (VVal.leaf (Val.int 7))) := by
  refine ⟨?_, ?_, ?_⟩
  · exact (varstore_type_conflict c7StLeaf ["a", "b"]).1 (Val.int 3) (by decide) rfl
  · exact (varstore_type_conflict c7StLeaf ["a"]).2.1 (Val.int 1) rfl rfl
  · exact (varstore_type_conflict c7St ["a"]).2.2 (Val.int 7)
      [(some "b", VVal.leaf (Val.int 5))] rfl rfl (by decide)

/-- C8 failing run: every call of `Predicate.require_byname` fails
with `NameError: name 'name' is not defined` inside `mkname` before the
circular-dependency assert can run — even when the looked-up instance
is in `solving` state — because `mkname`'s body returns `(name, ...)`
while its parameter is `pred_name` (and the module cannot even be
imported: `predicates.py` has syntax errors at lines 67, 75 and 79-81). -/
theorem require_byname_always_nameError (env : PredEnv) (name : String)
    (args : List Val) (kwargs : List (String × Val)) :
    require_byname env name args kwargs = Except.error (Exc.nameError "name") := by
  exact rfl

/-- C10: a handle returned by `watch` occurring once in the watcher
list at its path: the first `unwatch` removes it, so the watchers at
that path no longer include it and a subsequent `put` there (with the
intermediates in place) invokes only the remaining watchers; a second
`unwatch` of the same handle raises ValueError. -/
theorem unwatch_removes_then_errors (st : VarStore) (p : VPath) (id : Nat)
    (l : List Nat) (hfind : wFind st.watches p = some l) (hcount : l.count id = 1) :
    ∃ st2, VarStore.unwatch st p id = Except.ok st2 ∧
      watchersAt st2.watches p = l.erase id ∧
      id ∉ watchersAt st2.watches p ∧
      (∀ v, leadDirsOk st2.root p = true →
        ∃ st3, VarStore.put st2 p v = Except.ok (st3, watchersAt st2.watches p)) ∧
      VarStore.unwatch st2 p id = Except.error Exc.valueError := by
  have hpos : 0 < l.count id := by omega
  have hmem : id ∈ l := List.count_pos_iff.mp hpos
  have h0 : (l.erase id).count id = 0 := by
    rw [List.count_erase_self]
    omega
  have hnotmem : id ∉ l.erase id := List.count_eq_zero.mp h0
  have hw : watchersAt (wSet st.watches p (l.erase id)) p = l.erase id := by
    simp only [watchersAt, wFind_wSet_self]
    rfl
  refine ⟨{ st with watches := wSet st.watches p (l.erase id) }, ?_, hw, ?_, ?_, ?_⟩
  · simp only [VarStore.unwatch, hfind, if_pos hmem]
  · rw [hw]
    exact hnotmem
  · intro v hld
    exact varstore_put_invoked _ p v hld
  · simp only [VarStore.unwatch, wFind_wSet_self, if_neg hnotmem]

/-- C10 witness: on a store with the single watcher 0 at "x", the
first unwatch removes it (later puts invoke nobody) and the second
unwatch raises ValueError. -/
theorem unwatch_removes_then_errors_witness :
    ∃ st2, VarStore.unwatch c10St ["x"] 0 = Except.ok st2 ∧
      watchersAt st2.watches ["x"] = [] ∧
      0 ∉ watchersAt st2.watches ["x"] ∧
      (∀ v, leadDirsOk st2.root ["x"] = true →
        ∃ st3, VarStore.put st2 ["x"] v = Except.ok (st3, watchersAt st2.watches ["x"])) ∧
      VarStore.unwatch st2 ["x"] 0 = Except.error Exc.valueError := by
  obtain ⟨st2, h1, h2, h3, h4, h5⟩ :=
    unwatch_removes_then_errors c10St ["x"] 0 [0] rfl (by decide)
  exact ⟨st2, h1, by rw [h2]; rfl, h3, h4, h5⟩

/-- C3 witness: the single-choose ordering instantiated on (1, 2). -/
theorem single_choose_lexicographic_witness :
    ∃ l, solvePaths (oneChoose [Val.int 1, Val.int 2]) 3 = SolveOutP.done l ∧
      l.map Prod.fst = [Val.int 1, Val.int 2] ∧
      l.map Prod.snd = (List.range 2).map (fun i => [PathEntry.idx i]) ∧
      List.Pairwise (fun a b => pathLt a.2 b.2 = true) l :=
  single_choose_lexicographic (Val.int 1) [Val.int 2]
